import Mathlib

/-!
Verification of the keep-alive / router-view subsystem documented in this
repository.  The embedded definitions translate the JavaScript sources quoted
in the repository (the keep-alive component, the activation and deactivation
walkers of the lifecycle dispatcher, the RouterView render function and the
sameVnode predicate of the patch engine).  JavaScript truthiness on the
relevant values (strings, patterns, the tri-state inactive flag) is modelled
explicitly by the truthy helpers below.
-/

/-! ### Generic association lists (JS objects used as string maps) -/

/-- Lookup in a string-keyed association list, the model of reading a
property from a JS object used as a map. -/
def alistLookup {α : Type} : List (String × α) → String → Option α
  | [], _ => none
  | e :: es, k => if e.1 = k then some e.2 else alistLookup es k

/-- Removal of a key, the model of `cache[key] = null` followed by the
null-checking reads the sources perform. -/
def alistRemove {α : Type} : List (String × α) → String → List (String × α)
  | [], _ => []
  | e :: es, k => if e.1 = k then alistRemove es k else e :: alistRemove es k

/-! ### keep-alive: patterns and names -/

/-- The three shapes accepted by the `include` and `exclude` props:
an array of names, a comma separated string, or a regular expression
(modelled as its test predicate). -/
inductive Pattern where
  | arr (xs : List String)
  | str (s : String)
  | regex (test : String → Bool)

/-- The `matches` helper from keep-alive.js: array membership, comma-split membership,
or regex test. -/
def matchesPat (pattern : Pattern) (name : String) : Bool :=
  match pattern with
  | .arr xs => xs.contains name
  | .str s => (s.splitOn ",").contains name
  | .regex t => t name

/-- JS truthiness of an optional string: absent, and the empty string, are
falsy. -/
def truthyS : Option String → Bool
  | none => false
  | some s => s ≠ ""

/-- JS truthiness of an optional pattern prop: absent is falsy, an empty
string pattern is falsy, arrays and regexes are truthy. -/
def truthyPattern : Option Pattern → Bool
  | none => false
  | some (.str s) => s ≠ ""
  | some _ => true

/-- Guarded call `matches(pattern, name)`: in the source every call site
guards the pattern and the name for truthiness first, so the partial cases
return `false`. -/
def matchesName (p : Option Pattern) (n : Option String) : Bool :=
  match p, n with
  | some pat, some s => matchesPat pat s
  | _, _ => false

/-- The parts of `vnode.componentOptions` the keep-alive component reads:
`Ctor.cid`, `Ctor.options.name` and the registration `tag`. -/
structure ComponentOptions where
  cid : Nat
  ctorName : Option String
  tag : Option String
deriving Repr, DecidableEq

/-- The parts of a vnode the keep-alive component reads and writes.
`componentInstance` is the identity of the mounted instance (attached by the
host), `keepAlive` is the `data.keepAlive` mark. -/
structure VNode where
  key : Option String
  tag : Option String
  componentOptions : Option ComponentOptions
  componentInstance : Option Nat
  keepAlive : Bool := false
deriving Repr, DecidableEq

/-- `getComponentName` from keep-alive.js: `opts.Ctor.options.name || opts.tag`,
with JS `||` falling through on a falsy name. -/
def getComponentName (opts : Option ComponentOptions) : Option String :=
  match opts with
  | none => none
  | some o => if truthyS o.ctorName then o.ctorName else o.tag

/-- The cache key computed in the keep-alive render function:
`vnode.key == null ? Ctor.cid + (tag ? "::" + tag : "") : vnode.key`. -/
def getDerivedKey (key : Option String) (cid : Nat) (tag : Option String) : String :=
  match key with
  | some k => k
  | none => toString cid ++ (if truthyS tag then "::" ++ tag.getD "" else "")

/-! ### keep-alive: cache state and operations -/

/-- The state owned by a keep-alive instance: the key to vnode mapping
`this.cache` and the recency-ordered key list `this.keys`. -/
structure CacheState where
  cache : List (String × VNode)
  keys : List String
deriving Repr, DecidableEq

/-- Result of `pruneCacheEntry`: the updated mapping and key list, plus the
instances on which `$destroy` was requested. -/
structure PruneResult where
  cache : List (String × VNode)
  keys : List String
  destroyed : List Nat
deriving Repr, DecidableEq

/-- `pruneCacheEntry(cache, key, keys, current)` from keep-alive.js: destroy
the stored instance unless a current vnode with the same tag is supplied,
then unconditionally drop the key from the mapping and from the key list. -/
def pruneCacheEntry (cache : List (String × VNode)) (key : String)
    (keys : List String) (current : Option VNode) : PruneResult :=
  let cached := alistLookup cache key
  let destroyed :=
    match cached with
    | some c =>
      match current with
      | none => c.componentInstance.toList
      | some cur => if c.tag ≠ cur.tag then c.componentInstance.toList else []
    | none => []
  ⟨alistRemove cache key, keys.erase key, destroyed⟩

/-- The configuration props of the keep-alive component.  `max` is kept as an
optional number; `parseInt` on a number is the identity, and the JS
truthiness test `this.max &&` makes both an absent and a zero `max`
falsy. -/
structure KAConfig where
  includeP : Option Pattern := none
  excludeP : Option Pattern := none
  max : Option Nat := none

/-- The eviction trigger `this.max && keys.length > parseInt(this.max)`. -/
def maxExceeded : Option Nat → Nat → Bool
  | none, _ => false
  | some m, len => m != 0 && decide (len > m)

/-- The filter check of the keep-alive render function:
`(include && (!name || !matches(include, name))) || (exclude && name && matches(exclude, name))`.
A truthy result means the child is returned unmodified and never cached. -/
def kaFilteredOut (cfg : KAConfig) (opts : ComponentOptions) : Bool :=
  let name := getComponentName (some opts)
  (truthyPattern cfg.includeP && (!truthyS name || !matchesName cfg.includeP name))
    || (truthyPattern cfg.excludeP && truthyS name && matchesName cfg.excludeP name)

/-- Result of one keep-alive render pass: the new cache state, the returned
vnode, and the instances destroyed by eviction. -/
structure RenderResult where
  state : CacheState
  returned : Option VNode
  destroyed : List Nat
deriving Repr, DecidableEq

/-- The keep-alive `render` function.  `child` is the first component child
of the default slot (`getFirstComponentChild`, computed by the host) and
`current` is `this._vnode`, the vnode from the previous render pass,
maintained by the host.  Follows keep-alive.js line by line: filter check,
key derivation, hit (instance transplant and key refresh) or miss (store,
append, prune the front key on overflow), then the keepAlive mark. -/
def kaRender (cfg : KAConfig) (st : CacheState) (child : Option VNode)
    (current : Option VNode) : RenderResult :=
  match child with
  | none => ⟨st, none, []⟩
  | some vnode =>
    match vnode.componentOptions with
    | none => ⟨st, some vnode, []⟩
    | some opts =>
      if kaFilteredOut cfg opts then
        ⟨st, some vnode, []⟩
      else
        let key := getDerivedKey vnode.key opts.cid opts.tag
        match alistLookup st.cache key with
        | some cachedVnode =>
          let vnode1 := { vnode with
            componentInstance := cachedVnode.componentInstance
            keepAlive := true }
          ⟨⟨st.cache, (st.keys.erase key) ++ [key]⟩, some vnode1, []⟩
        | none =>
          let vnode1 := { vnode with keepAlive := true }
          let cache1 := (key, vnode1) :: st.cache
          let keys1 := st.keys ++ [key]
          if maxExceeded cfg.max keys1.length then
            let r := pruneCacheEntry cache1 (keys1.headD "") keys1 current
            ⟨⟨r.cache, r.keys⟩, some vnode1, r.destroyed⟩
          else
            ⟨⟨cache1, keys1⟩, some vnode1, []⟩

/-- A sequence of render passes; each input is the slot child together with
the `this._vnode` value the host maintains at that pass.  Returns the final
state and all instances destroyed along the way. -/
def kaRenderSeq (cfg : KAConfig) : List (Option VNode × Option VNode) → CacheState →
    CacheState × List Nat
  | [], st => (st, [])
  | p :: ps, st =>
    let r := kaRender cfg st p.1 p.2
    let rest := kaRenderSeq cfg ps r.state
    (rest.1, r.destroyed ++ rest.2)

/-- Well-formedness of the cache state: no duplicate keys on either side and
a key is listed in `keys` exactly when it is present in the mapping. -/
def CacheWF (st : CacheState) : Prop :=
  st.keys.Nodup ∧ (st.cache.map Prod.fst).Nodup ∧
    ∀ k, k ∈ st.keys ↔ (alistLookup st.cache k).isSome

/-! ### patch engine: sameVnode -/

/-- An async component factory: an identity plus whether its `error` field
is set.  Factory identity in the source is JS reference equality; two
factories are the same object exactly when the model values coincide. -/
structure AsyncFactory where
  afId : Nat
  afError : Bool
deriving Repr, DecidableEq

/-- The vnode fields read by `sameVnode`: identity key, tag, comment flag,
presence of render data, effective input type, and the async placeholder
fields. -/
structure PVNode where
  key : Option String
  tag : Option String
  isComment : Bool
  hasData : Bool
  inputType : Option String
  isAsyncPlaceholder : Bool
  asyncFactory : Option AsyncFactory
deriving Repr, DecidableEq

/-- Modelled from the spec: the helper `sameInputType` is not quoted in the
repository sources; the spec requires that "for input-like elements the
effective input subtype matches", so nodes with an `input` tag compare their
effective input type and all other nodes pass. -/
def sameInputType (a b : PVNode) : Bool :=
  if a.tag == some "input" then a.inputType == b.inputType else true

/-- Whether `isUndef(b.asyncFactory.error)` fails, i.e. the factory of `b`
has an error recorded. -/
def asyncFactoryError (b : PVNode) : Bool :=
  match b.asyncFactory with
  | some f => f.afError
  | none => false

/-- `sameVnode` from patch.js: key equality conjoined with either the
element-shape conjunction or the async placeholder branch. -/
def sameVnode (a b : PVNode) : Bool :=
  a.key == b.key &&
    ((a.tag == b.tag && a.isComment == b.isComment &&
      a.hasData == b.hasData && sameInputType a b)
     ||
     (a.isAsyncPlaceholder && a.asyncFactory == b.asyncFactory &&
      !asyncFactoryError b))

/-- The identity test exactly as the spec sentence words it: the five-way
conjunction (including key equality) or, independently, the async
placeholder branch.  Written from the claim text, to be compared with
`sameVnode` above. -/
def sameVnodeSpecClaim (a b : PVNode) : Bool :=
  (a.key == b.key && a.tag == b.tag && a.isComment == b.isComment &&
    a.hasData == b.hasData && sameInputType a b)
  ||
  (a.isAsyncPlaceholder && b.isAsyncPlaceholder && a.asyncFactory == b.asyncFactory &&
    !asyncFactoryError b)

/-! ### RouterView -/

/-- One matched segment of the current route: its name to component mapping
and its name to props configuration mapping.  Components and props
configurations are identified by opaque numbers. -/
structure Segment where
  components : List (String × Nat)
  segProps : List (String × Nat)
deriving Repr, DecidableEq

/-- The reactive current route: the matched segment list. -/
structure RouteV where
  matched : List Segment
deriving Repr, DecidableEq

/-- What the RouterView render reads from one ancestor in the parent chain:
whether the ancestor is the router root (the loop stops there), the
`routerView` and `keepAlive` marks of its enclosing vnode (both false when
the ancestor has no vnode), and the truthiness of its `_directInactive` and
`_inactive` flags. -/
structure RVAncestor where
  isRoot : Bool
  routerView : Bool
  keepAlive : Bool
  directInactive : Bool
  inactive : Bool
deriving Repr, DecidableEq

/-- An entry of the per-parent view cache `_routerViewCache`: the component
last resolved for a slot name, and, when a props configuration was used, the
route and configuration saved alongside it. -/
structure RVEntry where
  component : Nat
  cfgRoute : Option RouteV
  cfgProps : Option Nat
deriving Repr, DecidableEq

/-- The view cache, `null` assignments stored explicitly. -/
def RVCache : Type := List (String × Option RVEntry)

/-- Read `cache[name]`: both a missing property and a stored `null` give
nothing. -/
def rvCacheGet (c : RVCache) (name : String) : Option RVEntry :=
  match alistLookup c name with
  | some v => v
  | none => none

/-- Write `cache[name] = v`. -/
def rvCacheSet (c : RVCache) (name : String) (v : Option RVEntry) : RVCache :=
  (name, v) :: alistRemove c name

/-- The ancestor walk of the RouterView render function: starting from the
immediate parent and stopping at the router root, count the `routerView`
ancestors into `depth` and set `inactive` if any visited ancestor has the
keepAlive mark on its vnode together with truthy `_directInactive` and
`_inactive`. -/
def rvWalk : List RVAncestor → Nat × Bool
  | [] => (0, false)
  | a :: rest =>
    if a.isRoot then (0, false)
    else
      let r := rvWalk rest
      ((if a.routerView then r.1 + 1 else r.1),
       ((a.keepAlive && a.directInactive && a.inactive) || r.2))

/-- The result of one RouterView render pass: either `h(component, data,
children)` — with the route and props configuration passed to
`fillPropsinData` when one applies — or the empty placeholder `h()`. -/
inductive RVRes where
  | rendered (component : Nat) (dat : Nat) (children : Nat) (fill : Option (RouteV × Nat))
  | empty
deriving Repr, DecidableEq

/-- The RouterView render function.  `dat` and `children` are the render
data and children handed in by the host (opaque here).  Frozen branch: when
the walk finds an inactive kept-alive ancestor, re-render the cached
component (filling props from the saved route when a configuration was
saved) or the empty placeholder, leaving the cache untouched.  Normal
branch: resolve the matched segment at the computed depth, clear the cache
entry and render nothing when there is no match, otherwise cache the
component (with route and props configuration when one is declared) and
render it. -/
def rvRender (name : String) (route : RouteV) (cache : RVCache)
    (chain : List RVAncestor) (dat children : Nat) : RVRes × RVCache :=
  let walk := rvWalk chain
  if walk.2 then
    match rvCacheGet cache name with
    | some e =>
      (.rendered e.component dat children
        (match e.cfgRoute, e.cfgProps with
         | some r, some p => some (r, p)
         | _, _ => none), cache)
    | none => (.empty, cache)
  else
    match route.matched[walk.1]? with
    | none => (.empty, rvCacheSet cache name none)
    | some seg =>
      match alistLookup seg.components name with
      | none => (.empty, rvCacheSet cache name none)
      | some comp =>
        match alistLookup seg.segProps name with
        | some p =>
          (.rendered comp dat children (some (route, p)),
           rvCacheSet cache name (some ⟨comp, some route, some p⟩))
        | none =>
          (.rendered comp dat children none,
           rvCacheSet cache name (some ⟨comp, none, none⟩))

/-! ### lifecycle dispatcher: activation and deactivation -/

/-- The per-instance lifecycle state: the instance identity, the tri-state
`_inactive` flag (`none` models the initial `null`) and the
`_directInactive` flag. -/
structure InstSt where
  iid : Nat
  inactive : Option Bool
  directInactive : Bool
deriving Repr, DecidableEq

/-- A component instance tree: own state plus the `$children` list. -/
inductive CTree where
  | node : InstSt → List CTree → CTree
deriving Repr

/-- Lifecycle events: the instance identity and `true` for an `activated`
callback, `false` for a `deactivated` callback. -/
abbrev LifeEv := Nat × Bool

mutual
/-- `activateChildComponent(vm, direct)` from the lifecycle dispatcher.
`ambient` models `isInInactiveTree(vm)`, a walk over the ancestors of the
call target, which live outside the tree argument.  Returns the updated
tree and the fired callbacks in order. -/
def activateChildComponent (direct ambient : Bool) : CTree → CTree × List LifeEv
  | .node st cs =>
    let st1 := if direct then { st with directInactive := false } else st
    if direct && ambient then (.node st1 cs, [])
    else if !direct && st.directInactive then (.node st1 cs, [])
    else if st.inactive == some false then (.node st1 cs, [])
    else
      let r := activateChildren cs
      (.node { st1 with inactive := some false } r.1, r.2 ++ [(st.iid, true)])

/-- The child loop of `activateChildComponent`: every child is activated
non-directly, in order, before the parent fires its own callback. -/
def activateChildren : List CTree → List CTree × List LifeEv
  | [] => ([], [])
  | t :: ts =>
    let r1 := activateChildComponent false false t
    let r2 := activateChildren ts
    (r1.1 :: r2.1, r1.2 ++ r2.2)
end

mutual
/-- `deactivateChildComponent(vm, direct)` from the lifecycle dispatcher.
Unlike activation there is no `_directInactive` short-circuit on the
non-direct path: the only remaining guard is `if (!vm._inactive)`. -/
def deactivateChildComponent (direct ambient : Bool) : CTree → CTree × List LifeEv
  | .node st cs =>
    let st1 := if direct then { st with directInactive := true } else st
    if direct && ambient then (.node st1 cs, [])
    else if st.inactive == some true then (.node st1 cs, [])
    else
      let r := deactivateChildren cs
      (.node { st1 with inactive := some true } r.1, r.2 ++ [(st.iid, false)])

/-- The child loop of `deactivateChildComponent`. -/
def deactivateChildren : List CTree → List CTree × List LifeEv
  | [] => ([], [])
  | t :: ts =>
    let r1 := deactivateChildComponent false false t
    let r2 := deactivateChildren ts
    (r1.1 :: r2.1, r1.2 ++ r2.2)
end

mutual
/-- The instance identities occurring in a tree. -/
def idsOf : CTree → List Nat
  | .node st cs => st.iid :: idsOfList cs

/-- The instance identities occurring in a forest. -/
def idsOfList : List CTree → List Nat
  | [] => []
  | t :: ts => idsOf t ++ idsOfList ts
end

mutual
/-- The `_inactive` flag of the instance with the given identity, when it
occurs in the tree. -/
def inactiveOf (i : Nat) : CTree → Option (Option Bool)
  | .node st cs => if st.iid = i then some st.inactive else inactiveOfList i cs

/-- The `_inactive` flag of the instance with the given identity, when it
occurs in the forest. -/
def inactiveOfList (i : Nat) : List CTree → Option (Option Bool)
  | [] => none
  | t :: ts =>
    match inactiveOf i t with
    | some v => some v
    | none => inactiveOfList i ts
end

/-- One call the host dispatcher makes into the propagator: activation or
deactivation of the tree root, with the `direct` argument of the source and
the ambient `isInInactiveTree` answer. -/
inductive LCall where
  | act (direct ambient : Bool)
  | deact (direct ambient : Bool)
deriving Repr, DecidableEq

/-- Dispatch one call. -/
def runCall : LCall → CTree → CTree × List LifeEv
  | .act d a, t => activateChildComponent d a t
  | .deact d a, t => deactivateChildComponent d a t

/-- Run a sequence of dispatcher calls, concatenating the fired callbacks. -/
def runCalls : List LCall → CTree → CTree × List LifeEv
  | [], t => (t, [])
  | c :: cs, t =>
    let r1 := runCall c t
    let r2 := runCalls cs r1.1
    (r2.1, r1.2 ++ r2.2)

/-- The callback kinds fired for one instance, in order. -/
def evsFor (i : Nat) (evs : List LifeEv) : List Bool :=
  (evs.filter (fun e => e.1 == i)).map Prod.snd

/-- The `_inactive` flag of the root instance. -/
def rootInactive : CTree → Option Bool
  | .node st _ => st.inactive

/-- The `_directInactive` flag of the root instance. -/
def rootDirectInactive : CTree → Bool
  | .node st _ => st.directInactive

/-! ### Concrete instances used by the closed statements below -/

/-- A keep-alive configuration with `max` set to zero. -/
def cfgMaxZero : KAConfig := { max := some 0 }

/-- A keep-alive configuration with `max` set to one. -/
def cfgMaxOne : KAConfig := { max := some 1 }

/-- A keep-alive configuration with only `exclude` set. -/
def cfgExcludeOnly : KAConfig := { excludeP := some (.str "page-a") }

/-- A component child vnode in the shape produced for the demo `home` page. -/
def vnHome : VNode :=
  { key := none, tag := some "vue-component-1-home",
    componentOptions := some ⟨1, some "home", some "home"⟩, componentInstance := none }

/-- The cached front entry of the eviction counterexample: tag `t`,
mounted instance `7`. -/
def vnFront : VNode :=
  { key := some "k0", tag := some "t",
    componentOptions := some ⟨1, some "a", some "a"⟩, componentInstance := some 7 }

/-- The freshly rendered child of the eviction counterexample, keyed `k1`. -/
def vnNew : VNode :=
  { key := some "k1", tag := some "u",
    componentOptions := some ⟨2, some "b", some "b"⟩, componentInstance := none }

/-- The `this._vnode` value of the eviction counterexample: its tag `t`
equals the tag of the cached front entry. -/
def vnCurrent : VNode :=
  { key := none, tag := some "t", componentOptions := none, componentInstance := some 7 }

/-- A component child whose constructor declares no name and whose options
carry no tag, so its resolved component name is absent. -/
def vnNoName : VNode :=
  { key := none, tag := none,
    componentOptions := some ⟨5, none, none⟩, componentInstance := none }

/-- The one-entry cache state of the eviction counterexample. -/
def stFront : CacheState := ⟨[("k0", vnFront)], ["k0"]⟩

/-- An unresolved async placeholder vnode with key `x` and factory `3`. -/
def pvAsyncA : PVNode :=
  { key := some "x", tag := none, isComment := false, hasData := false,
    inputType := none, isAsyncPlaceholder := true, asyncFactory := some ⟨3, false⟩ }

/-- An unresolved async placeholder vnode with key `y` and the same
factory `3`. -/
def pvAsyncB : PVNode :=
  { key := some "y", tag := none, isComment := false, hasData := false,
    inputType := none, isAsyncPlaceholder := true, asyncFactory := some ⟨3, false⟩ }

/-- A single already-inactive instance that was deactivated by propagation,
so its `_directInactive` flag is still false. -/
def exInactive : CTree := .node ⟨0, some true, false⟩ []

/-- A parent with two children, all inactive, ready to activate. -/
def exParent : CTree :=
  .node ⟨0, some true, false⟩ [.node ⟨1, some true, false⟩ [], .node ⟨2, some true, false⟩ []]

/-- A parent with two children, all active, ready to deactivate. -/
def exParentActive : CTree :=
  .node ⟨0, some false, false⟩ [.node ⟨1, some false, false⟩ [], .node ⟨2, some false, false⟩ []]

/-- An ancestor chain whose first member is a kept-alive, directly
deactivated and currently inactive instance, followed by the router root. -/
def exChainFrozen : List RVAncestor :=
  [⟨false, false, true, true, true⟩, ⟨true, false, false, false, false⟩]

/-- A view cache holding component `42` under the default slot name. -/
def exRVCache : RVCache := [("default", some ⟨42, none, none⟩)]

/-- A single instance that is directly inactive but still active: it was
directly deactivated while sitting inside an inactive ancestor tree, so the
early return left its `_inactive` flag untouched. -/
def exDirectInactive : CTree := .node ⟨4, some false, true⟩ []

/-- Consistency between the `_inactive` flag of one instance and the
callback kinds recorded for it so far: the recorded kinds alternate, and
the flag agrees with the most recent callback (`activated` sets it to
`some false`, `deactivated` to `some true`). -/
def altConsistent (stv : Option (Option Bool)) (evs : List Bool) : Prop :=
  List.Chain' (· ≠ ·) evs ∧ ∀ b, evs.getLast? = some b → stv = some (some (!b))

/-- A keep-alive configuration with only `include` set. -/
def cfgIncludeHome : KAConfig := { includeP := some (.arr ["home"]) }

/-! ## Helper lemmas about association lists -/

theorem alistLookup_isSome_iff {α : Type} (c : List (String × α)) (k : String) :
    (alistLookup c k).isSome ↔ k ∈ c.map Prod.fst := by
  induction c with
  | nil => simp [alistLookup]
  | cons e es ih =>
    by_cases h : e.1 = k
    · simp [alistLookup, h]
    · simp only [alistLookup, if_neg h, List.map_cons, List.mem_cons]
      rw [ih]
      constructor
      · exact fun hm => Or.inr hm
      · rintro (hm | hm)
        · exact absurd hm.symm h
        · exact hm

theorem alistRemove_sublist {α : Type} (c : List (String × α)) (k : String) :
    List.Sublist (alistRemove c k) c := by
  induction c with
  | nil => simp [alistRemove]
  | cons e es ih =>
    by_cases h : e.1 = k
    · simpa [alistRemove, h] using ih.cons e
    · simpa [alistRemove, h] using ih.cons₂ e

theorem alistLookup_remove_self {α : Type} (c : List (String × α)) (k : String) :
    alistLookup (alistRemove c k) k = none := by
  induction c with
  | nil => simp [alistLookup, alistRemove]
  | cons e es ih =>
    by_cases h : e.1 = k
    · simpa [alistRemove, h] using ih
    · simpa [alistRemove, alistLookup, h] using ih

theorem alistLookup_remove_ne {α : Type} (c : List (String × α)) (k k' : String)
    (h : k' ≠ k) : alistLookup (alistRemove c k) k' = alistLookup c k' := by
  have h2 : k ≠ k' := fun hk => h hk.symm
  induction c with
  | nil => simp [alistLookup, alistRemove]
  | cons e es ih =>
    by_cases he : e.1 = k
    · simpa [alistRemove, alistLookup, he, h2] using ih
    · by_cases he' : e.1 = k'
      · simp [alistRemove, alistLookup, he, he', h]
      · simpa [alistRemove, alistLookup, he, he'] using ih

theorem alistRemove_map_fst_nodup {α : Type} (c : List (String × α)) (k : String)
    (h : (c.map Prod.fst).Nodup) : ((alistRemove c k).map Prod.fst).Nodup :=
  h.sublist ((alistRemove_sublist c k).map Prod.fst)

theorem alistRemove_eq_self {α : Type} (c : List (String × α)) (k : String)
    (h : k ∉ c.map Prod.fst) : alistRemove c k = c := by
  induction c with
  | nil => simp [alistRemove]
  | cons e es ih =>
    simp only [List.map_cons, List.mem_cons] at h
    push_neg at h
    have he : e.1 ≠ k := fun hk => h.1 hk.symm
    simp [alistRemove, he, ih h.2]

theorem alistRemove_length {α : Type} (c : List (String × α)) (k : String)
    (hn : (c.map Prod.fst).Nodup) (h : (alistLookup c k).isSome) :
    (alistRemove c k).length + 1 = c.length := by
  induction c with
  | nil => simp [alistLookup] at h
  | cons e es ih =>
    have hn1 : e.1 ∉ es.map Prod.fst := (List.nodup_cons.mp (by simpa using hn)).1
    have hn' : (es.map Prod.fst).Nodup := (List.nodup_cons.mp (by simpa using hn)).2
    by_cases he : e.1 = k
    · have hk : k ∉ es.map Prod.fst := he ▸ hn1
      simp [alistRemove, he, alistRemove_eq_self es k hk]
    · have h' : (alistLookup es k).isSome := by
        simpa [alistLookup, he] using h
      have := ih hn' h'
      simp only [alistRemove, if_neg he, List.length_cons]
      omega

/-! ## Helper lemmas about the keep-alive cache -/

theorem pruneCacheEntry_keys (c : List (String × VNode)) (k : String) (ks : List String)
    (cur : Option VNode) : (pruneCacheEntry c k ks cur).keys = ks.erase k := rfl

theorem pruneCacheEntry_cache (c : List (String × VNode)) (k : String) (ks : List String)
    (cur : Option VNode) : (pruneCacheEntry c k ks cur).cache = alistRemove c k := rfl

theorem pruneCacheEntry_wf (c : List (String × VNode)) (k : String) (ks : List String)
    (cur : Option VNode) (hks : ks.Nodup) (hc : (c.map Prod.fst).Nodup)
    (hiff : ∀ x, x ∈ ks ↔ (alistLookup c x).isSome) :
    (pruneCacheEntry c k ks cur).keys.Nodup ∧
    ((pruneCacheEntry c k ks cur).cache.map Prod.fst).Nodup ∧
    (∀ x, x ∈ (pruneCacheEntry c k ks cur).keys ↔
      (alistLookup (pruneCacheEntry c k ks cur).cache x).isSome) ∧
    k ∉ (pruneCacheEntry c k ks cur).keys ∧
    alistLookup (pruneCacheEntry c k ks cur).cache k = none := by
  rw [pruneCacheEntry_keys, pruneCacheEntry_cache]
  refine ⟨hks.erase k, alistRemove_map_fst_nodup c k hc, ?_, ?_, alistLookup_remove_self c k⟩
  · intro x
    by_cases hx : x = k
    · subst hx
      simp [hks.mem_erase_iff, alistLookup_remove_self]
    · rw [hks.mem_erase_iff, alistLookup_remove_ne c k x hx]
      exact ⟨fun hm => (hiff x).mp hm.2, fun hm => ⟨hx, (hiff x).mpr hm⟩⟩
  · simp [hks.mem_erase_iff]

theorem cacheWF_insert (st : CacheState) (key : String) (v1 : VNode)
    (h : CacheWF st) (hlk : alistLookup st.cache key = none) :
    CacheWF ⟨(key, v1) :: st.cache, st.keys ++ [key]⟩ := by
  obtain ⟨hks, hc, hiff⟩ := h
  have hkey_not : key ∉ st.keys := fun hm => by
    have := (hiff key).mp hm
    rw [hlk] at this
    simp at this
  have hkey_notc : key ∉ st.cache.map Prod.fst := fun hm => by
    have := (alistLookup_isSome_iff st.cache key).mpr hm
    rw [hlk] at this
    simp at this
  refine ⟨?_, ?_, ?_⟩
  · exact hks.append (List.nodup_singleton key)
      (fun x hx hx1 => by
        simp only [List.mem_singleton] at hx1
        exact hkey_not (hx1 ▸ hx))
  · simpa using List.nodup_cons.mpr ⟨hkey_notc, hc⟩
  · intro x
    by_cases hx : x = key
    · subst hx
      simp [alistLookup]
    · have hne : ¬((key, v1).1 = x) := fun hk => hx hk.symm
      have hlx : alistLookup ((key, v1) :: st.cache) x = alistLookup st.cache x := by
        simp only [alistLookup]
        exact if_neg hne
      simp only [List.mem_append, List.mem_singleton, hlx]
      rw [← hiff x]
      exact ⟨fun hm => hm.elim id (fun hk => absurd hk hx),
             fun hm => Or.inl hm⟩

theorem cacheWF_refresh (st : CacheState) (key : String)
    (h : CacheWF st) (hlk : (alistLookup st.cache key).isSome) :
    CacheWF ⟨st.cache, (st.keys.erase key) ++ [key]⟩ := by
  obtain ⟨hks, hc, hiff⟩ := h
  refine ⟨?_, hc, ?_⟩
  · exact (hks.erase key).append (List.nodup_singleton key)
      (fun x hx hx1 => by
        simp only [List.mem_singleton] at hx1
        subst hx1
        exact ((hks.mem_erase_iff).mp hx).1 rfl)
  · intro x
    by_cases hx : x = key
    · subst hx
      simp [hlk]
    · simp only [List.mem_append, List.mem_singleton, hks.mem_erase_iff]
      rw [← hiff x]
      exact ⟨fun hm => hm.elim (fun h1 => h1.2) (fun hk => absurd hk hx),
             fun hm => Or.inl ⟨hx, hm⟩⟩

theorem kaRender_cases (cfg : KAConfig) (st : CacheState) (vnode : VNode)
    (cur : Option VNode) (opts : ComponentOptions)
    (hop : vnode.componentOptions = some opts) (hf : kaFilteredOut cfg opts = false) :
    (∃ cv, alistLookup st.cache (getDerivedKey vnode.key opts.cid opts.tag) = some cv ∧
       kaRender cfg st (some vnode) cur =
         ⟨⟨st.cache, (st.keys.erase (getDerivedKey vnode.key opts.cid opts.tag)) ++
             [getDerivedKey vnode.key opts.cid opts.tag]⟩,
          some { vnode with componentInstance := cv.componentInstance, keepAlive := true }, []⟩)
    ∨ (alistLookup st.cache (getDerivedKey vnode.key opts.cid opts.tag) = none ∧
       maxExceeded cfg.max (st.keys.length + 1) = false ∧
       kaRender cfg st (some vnode) cur =
         ⟨⟨(getDerivedKey vnode.key opts.cid opts.tag, { vnode with keepAlive := true }) :: st.cache,
           st.keys ++ [getDerivedKey vnode.key opts.cid opts.tag]⟩,
          some { vnode with keepAlive := true }, []⟩)
    ∨ (alistLookup st.cache (getDerivedKey vnode.key opts.cid opts.tag) = none ∧
       maxExceeded cfg.max (st.keys.length + 1) = true ∧
       kaRender cfg st (some vnode) cur =
         ⟨⟨(pruneCacheEntry
              ((getDerivedKey vnode.key opts.cid opts.tag, { vnode with keepAlive := true }) :: st.cache)
              ((st.keys ++ [getDerivedKey vnode.key opts.cid opts.tag]).headD "")
              (st.keys ++ [getDerivedKey vnode.key opts.cid opts.tag]) cur).cache,
           (pruneCacheEntry
              ((getDerivedKey vnode.key opts.cid opts.tag, { vnode with keepAlive := true }) :: st.cache)
              ((st.keys ++ [getDerivedKey vnode.key opts.cid opts.tag]).headD "")
              (st.keys ++ [getDerivedKey vnode.key opts.cid opts.tag]) cur).keys⟩,
          some { vnode with keepAlive := true },
          (pruneCacheEntry
              ((getDerivedKey vnode.key opts.cid opts.tag, { vnode with keepAlive := true }) :: st.cache)
              ((st.keys ++ [getDerivedKey vnode.key opts.cid opts.tag]).headD "")
              (st.keys ++ [getDerivedKey vnode.key opts.cid opts.tag]) cur).destroyed⟩) := by
  cases hlk : alistLookup st.cache (getDerivedKey vnode.key opts.cid opts.tag) with
  | some cv =>
    refine Or.inl ⟨cv, rfl, ?_⟩
    simp [kaRender, hop, hf, hlk]
  | none =>
    cases hmax : maxExceeded cfg.max (st.keys.length + 1) with
    | false =>
      refine Or.inr (Or.inl ⟨rfl, rfl, ?_⟩)
      simp [kaRender, hop, hf, hlk, hmax]
    | true =>
      refine Or.inr (Or.inr ⟨rfl, rfl, ?_⟩)
      simp [kaRender, hop, hf, hlk, hmax]

theorem kaRender_skip (cfg : KAConfig) (st : CacheState) (vnode : VNode)
    (cur : Option VNode) (opts : ComponentOptions)
    (hop : vnode.componentOptions = some opts) (hf : kaFilteredOut cfg opts = true) :
    kaRender cfg st (some vnode) cur = ⟨st, some vnode, []⟩ := by
  simp [kaRender, hop, hf]

theorem maxExceeded_spec (mx : Option Nat) (n : Nat) (h : maxExceeded mx n = true) :
    ∃ m, mx = some m ∧ m ≠ 0 ∧ n > m := by
  cases mx with
  | none => simp [maxExceeded] at h
  | some m =>
    simp only [maxExceeded, Bool.and_eq_true, bne_iff_ne, ne_eq, decide_eq_true_eq] at h
    exact ⟨m, rfl, h.1, h.2⟩

theorem front_mem (ks : List String) (k2 : String) (h : ks ≠ []) :
    (ks ++ [k2]).headD "" ∈ ks := by
  cases ks with
  | nil => exact absurd rfl h
  | cons y ys => simp

theorem cacheWF_keys_length (st : CacheState) (h : CacheWF st) :
    st.keys.length = st.cache.length := by
  obtain ⟨hks, hc, hiff⟩ := h
  have hp : st.keys.Perm (st.cache.map Prod.fst) :=
    (List.perm_ext_iff_of_nodup hks hc).2
      (fun a => (hiff a).trans (alistLookup_isSome_iff _ a))
  simpa using hp.length_eq

theorem kaRender_wf (cfg : KAConfig) (st : CacheState) (child cur : Option VNode)
    (h : CacheWF st) : CacheWF (kaRender cfg st child cur).state := by
  cases child with
  | none => simpa [kaRender] using h
  | some vnode =>
    cases hop : vnode.componentOptions with
    | none => simpa [kaRender, hop] using h
    | some opts =>
      cases hf : kaFilteredOut cfg opts with
      | true =>
        rw [kaRender_skip cfg st vnode cur opts hop hf]
        exact h
      | false =>
        rcases kaRender_cases cfg st vnode cur opts hop hf with
          ⟨cv, hlk, heq⟩ | ⟨hlk, hmax, heq⟩ | ⟨hlk, hmax, heq⟩
        · rw [heq]
          exact cacheWF_refresh st _ h (by simp [hlk])
        · rw [heq]
          exact cacheWF_insert st _ _ h hlk
        · rw [heq]
          have h1 := cacheWF_insert st (getDerivedKey vnode.key opts.cid opts.tag)
            { vnode with keepAlive := true } h hlk
          obtain ⟨hks1, hc1, hiff1⟩ := h1
          obtain ⟨a, b, c, _, _⟩ := pruneCacheEntry_wf _ _ _ cur hks1 hc1 hiff1
          exact ⟨a, b, c⟩

theorem kaRender_size_le (cfg : KAConfig) (st : CacheState) (child cur : Option VNode)
    (m : Nat) (hm : cfg.max = some m) (hm0 : m ≠ 0)
    (h : CacheWF st) (hle : st.cache.length ≤ m) :
    (kaRender cfg st child cur).state.cache.length ≤ m := by
  cases child with
  | none => simpa [kaRender] using hle
  | some vnode =>
    cases hop : vnode.componentOptions with
    | none => simpa [kaRender, hop] using hle
    | some opts =>
      cases hf : kaFilteredOut cfg opts with
      | true =>
        rw [kaRender_skip cfg st vnode cur opts hop hf]
        exact hle
      | false =>
        rcases kaRender_cases cfg st vnode cur opts hop hf with
          ⟨cv, hlk, heq⟩ | ⟨hlk, hmax, heq⟩ | ⟨hlk, hmax, heq⟩
        · rw [heq]
          exact hle
        · rw [heq]
          have hlen := cacheWF_keys_length st h
          have : ¬(m ≠ 0 ∧ st.keys.length + 1 > m) := by
            intro hcon
            simp [maxExceeded, hm, hcon.1, hcon.2] at hmax
          push_neg at this
          have hle2 := this hm0
          simp only [List.length_cons]
          omega
        · rw [heq]
          obtain ⟨m2, hm2, hm20, hgt⟩ := maxExceeded_spec cfg.max _ hmax
          rw [hm] at hm2
          injection hm2 with hm2
          subst hm2
          have hlen := cacheWF_keys_length st h
          have hne : st.keys ≠ [] := by
            intro hnil
            rw [hnil] at hgt
            simp at hgt
            omega
          have hfm : (st.keys ++ [getDerivedKey vnode.key opts.cid opts.tag]).headD "" ∈ st.keys :=
            front_mem _ _ hne
          have hfk : (st.keys ++ [getDerivedKey vnode.key opts.cid opts.tag]).headD "" ≠
              getDerivedKey vnode.key opts.cid opts.tag := by
            intro hEq
            have : getDerivedKey vnode.key opts.cid opts.tag ∈ st.keys := hEq ▸ hfm
            have := (h.2.2 _).mp this
            rw [hlk] at this
            simp at this
          have h1 := cacheWF_insert st (getDerivedKey vnode.key opts.cid opts.tag)
            { vnode with keepAlive := true } h hlk
          have hsome : (alistLookup
              ((getDerivedKey vnode.key opts.cid opts.tag, { vnode with keepAlive := true }) :: st.cache)
              ((st.keys ++ [getDerivedKey vnode.key opts.cid opts.tag]).headD "")).isSome := by
            refine (h1.2.2 _).mp ?_
            simp only [List.mem_append, List.mem_singleton]
            exact Or.inl hfm
          have hrl := alistRemove_length _ _ h1.2.1 hsome
          simp only [pruneCacheEntry_cache]
          simp only [List.length_cons] at hrl
          omega

theorem kaRender_no_evict (cfg : KAConfig) (st : CacheState) (child cur : Option VNode)
    (hmz : cfg.max = none ∨ cfg.max = some 0) :
    (kaRender cfg st child cur).destroyed = [] ∧
    ∀ k0, (alistLookup st.cache k0).isSome →
      (alistLookup (kaRender cfg st child cur).state.cache k0).isSome := by
  have hmaxf : ∀ n, maxExceeded cfg.max n = false := by
    rcases hmz with h | h <;> simp [maxExceeded, h]
  cases child with
  | none => simp [kaRender]
  | some vnode =>
    cases hop : vnode.componentOptions with
    | none => simp [kaRender, hop]
    | some opts =>
      cases hf : kaFilteredOut cfg opts with
      | true =>
        rw [kaRender_skip cfg st vnode cur opts hop hf]
        simp
      | false =>
        rcases kaRender_cases cfg st vnode cur opts hop hf with
          ⟨cv, hlk, heq⟩ | ⟨hlk, hmax, heq⟩ | ⟨hlk, hmax, heq⟩
        · rw [heq]
          simp
        · rw [heq]
          refine ⟨rfl, fun k0 hk0 => ?_⟩
          by_cases hx : (getDerivedKey vnode.key opts.cid opts.tag) = k0
          · simp [alistLookup, hx]
          · simp only [alistLookup, if_neg hx]
            simpa [alistLookup, hx] using hk0
        · rw [hmaxf _] at hmax
          exact absurd hmax (by simp)

theorem kaRenderSeq_wf_size (cfg : KAConfig) (m : Nat) (hm : cfg.max = some m)
    (hm0 : m ≠ 0) (inputs : List (Option VNode × Option VNode)) :
    ∀ st, CacheWF st → st.cache.length ≤ m →
      CacheWF (kaRenderSeq cfg inputs st).1 ∧ (kaRenderSeq cfg inputs st).1.cache.length ≤ m := by
  induction inputs with
  | nil =>
    intro st h hle
    exact ⟨h, hle⟩
  | cons p ps ih =>
    intro st h hle
    exact ih _ (kaRender_wf _ _ _ _ h) (kaRender_size_le _ _ _ _ m hm hm0 h hle)

theorem kaRenderSeq_no_evict (cfg : KAConfig) (hmz : cfg.max = none ∨ cfg.max = some 0)
    (inputs : List (Option VNode × Option VNode)) :
    ∀ st, (kaRenderSeq cfg inputs st).2 = [] ∧
      ∀ k0, (alistLookup st.cache k0).isSome →
        (alistLookup (kaRenderSeq cfg inputs st).1.cache k0).isSome := by
  induction inputs with
  | nil => intro st; simp [kaRenderSeq]
  | cons p ps ih =>
    intro st
    have h1 := kaRender_no_evict cfg st p.1 p.2 hmz
    refine ⟨?_, fun k0 hk0 => (ih _).2 k0 (h1.2 k0 hk0)⟩
    show (kaRender cfg st p.1 p.2).destroyed ++ (kaRenderSeq cfg ps (kaRender cfg st p.1 p.2).state).2 = []
    rw [h1.1, (ih _).1]
    rfl

theorem kaRender_key_mem (cfg : KAConfig) (st : CacheState) (vnode : VNode)
    (cur : Option VNode) (opts : ComponentOptions) (h : CacheWF st)
    (hop : vnode.componentOptions = some opts) (hf : kaFilteredOut cfg opts = false) :
    getDerivedKey vnode.key opts.cid opts.tag ∈ (kaRender cfg st (some vnode) cur).state.keys := by
  rcases kaRender_cases cfg st vnode cur opts hop hf with
    ⟨cv, hlk, heq⟩ | ⟨hlk, hmax, heq⟩ | ⟨hlk, hmax, heq⟩
  · rw [heq]
    simp
  · rw [heq]
    simp
  · rw [heq]
    obtain ⟨m2, hm2, hm20, hgt⟩ := maxExceeded_spec cfg.max _ hmax
    have hlen := cacheWF_keys_length st h
    have hne : st.keys ≠ [] := by
      intro hnil
      rw [hnil] at hgt
      simp at hgt
      omega
    have hfm : (st.keys ++ [getDerivedKey vnode.key opts.cid opts.tag]).headD "" ∈ st.keys :=
      front_mem _ _ hne
    have hfk : getDerivedKey vnode.key opts.cid opts.tag ≠
        (st.keys ++ [getDerivedKey vnode.key opts.cid opts.tag]).headD "" := by
      intro hEq
      have hmem : getDerivedKey vnode.key opts.cid opts.tag ∈ st.keys := hEq ▸ hfm
      have := (h.2.2 _).mp hmem
      rw [hlk] at this
      simp at this
    have h1 := cacheWF_insert st (getDerivedKey vnode.key opts.cid opts.tag)
      { vnode with keepAlive := true } h hlk
    simp only [pruneCacheEntry_keys]
    rw [h1.1.mem_erase_iff]
    exact ⟨hfk, by simp⟩

theorem kaRender_returned_marked (cfg : KAConfig) (st : CacheState) (vnode : VNode)
    (cur : Option VNode) (opts : ComponentOptions)
    (hop : vnode.componentOptions = some opts) (hf : kaFilteredOut cfg opts = false) :
    ((kaRender cfg st (some vnode) cur).returned.map VNode.keepAlive) = some true := by
  rcases kaRender_cases cfg st vnode cur opts hop hf with
    ⟨cv, hlk, heq⟩ | ⟨hlk, hmax, heq⟩ | ⟨hlk, hmax, heq⟩ <;> rw [heq] <;> rfl

theorem pruneCacheEntry_destroyed (c : List (String × VNode)) (k : String)
    (ks : List String) (cur : Option VNode) :
    (pruneCacheEntry c k ks cur).destroyed =
      match alistLookup c k with
      | some cv =>
        match cur with
        | none => cv.componentInstance.toList
        | some cu => if cv.tag ≠ cu.tag then cv.componentInstance.toList else []
      | none => [] := rfl

theorem headD_append_of_ne_nil (ks : List String) (k2 : String) (h : ks ≠ []) :
    (ks ++ [k2]).headD "" = ks.headD "" := by
  cases ks with
  | nil => exact absurd rfl h
  | cons y ys => simp

theorem headD_mem_of_ne_nil (ks : List String) (h : ks ≠ []) : ks.headD "" ∈ ks := by
  cases ks with
  | nil => exact absurd rfl h
  | cons y ys => simp

theorem cacheWF_empty : CacheWF ⟨[], []⟩ := by
  refine ⟨List.nodup_nil, by simp, fun k => ?_⟩
  simp [alistLookup]

theorem cacheWF_stFront : CacheWF stFront := by
  refine ⟨by decide, by decide, fun k => ?_⟩
  by_cases hx : k = "k0"
  · subst hx
    simp [stFront, alistLookup]
  · simp [stFront, alistLookup, hx, Ne.symm hx]

/-! ## Claim theorems: the keep-alive cache -/

/-- C2 counterexample: `max` configured as `0` is falsy for the eviction
trigger `this.max && keys.length > parseInt(this.max)`, so one qualifying
render pass leaves one entry in the cache, exceeding the configured bound
of zero, and no eviction occurs. -/
theorem keepAlive_max_zero_counterexample :
    cfgMaxZero.max = some 0 ∧
    (kaRenderSeq cfgMaxZero [(some vnHome, none)] ⟨[], []⟩).1.cache.length = 1 ∧
    (kaRenderSeq cfgMaxZero [(some vnHome, none)] ⟨[], []⟩).2 = [] := by
  refine ⟨rfl, ?_, ?_⟩ <;> rfl

/-- C2 (amended): for every sequence of renders of a keep-alive whose `max`
is configured to a nonzero value `m`, starting from a well-formed state
within the bound, after every render pass the number of cache entries is at
most `m`; when `max` is unset — or set to `0`, which the eviction trigger
treats as unset — no eviction ever occurs: nothing is destroyed and every
cached entry stays in the mapping. -/
theorem keepAlive_bounded_size :
    (∀ cfg m inputs st, cfg.max = some m → m ≠ 0 → CacheWF st → st.cache.length ≤ m →
      (kaRenderSeq cfg inputs st).1.cache.length ≤ m) ∧
    (∀ cfg inputs st, cfg.max = none ∨ cfg.max = some 0 →
      (kaRenderSeq cfg inputs st).2 = [] ∧
      ∀ k0, (alistLookup st.cache k0).isSome →
        (alistLookup (kaRenderSeq cfg inputs st).1.cache k0).isSome) :=
  ⟨fun cfg m inputs st hm hm0 h hle => (kaRenderSeq_wf_size cfg m hm hm0 inputs st h hle).2,
   fun cfg inputs st hmz => kaRenderSeq_no_evict cfg hmz inputs st⟩

/-- Witness for C2: a two-pass sequence with `max = 1` stays within the
bound. -/
theorem keepAlive_bounded_size_witness :
    cfgMaxOne.max = some 1 ∧ CacheWF ⟨[], []⟩ ∧
    (kaRenderSeq cfgMaxOne [(some vnHome, none), (some vnNew, some vnHome)] ⟨[], []⟩).1.cache.length ≤ 1 :=
  ⟨rfl, cacheWF_empty,
   keepAlive_bounded_size.1 cfgMaxOne 1 _ _ rfl (by decide) cacheWF_empty (by simp)⟩

/-- C9: a key appears in the recency-ordering list iff it appears in the
key-to-snapshot mapping: well-formedness is preserved by every render pass
of the keep-alive component, and `pruneCacheEntry` leaves a state in which
the pruned key is absent from both the ordering list and the mapping while
the membership equivalence still holds. -/
theorem cache_keys_mapping_invariant :
    (∀ cfg st child cur, CacheWF st → CacheWF (kaRender cfg st child cur).state) ∧
    (∀ c k ks cur, ks.Nodup → (c.map Prod.fst).Nodup →
      (∀ x, x ∈ ks ↔ (alistLookup c x).isSome) →
      (∀ x, x ∈ (pruneCacheEntry c k ks cur).keys ↔
        (alistLookup (pruneCacheEntry c k ks cur).cache x).isSome) ∧
      k ∉ (pruneCacheEntry c k ks cur).keys ∧
      alistLookup (pruneCacheEntry c k ks cur).cache k = none) :=
  ⟨fun cfg st child cur h => kaRender_wf cfg st child cur h,
   fun c k ks cur h1 h2 h3 =>
     (pruneCacheEntry_wf c k ks cur h1 h2 h3).2.2⟩

/-- Witness for C9: the invariant holds after a concrete render pass from
the empty state, and pruning the only entry of a concrete cache removes it
from both sides. -/
theorem cache_keys_mapping_invariant_witness :
    CacheWF ⟨[], []⟩ ∧
    CacheWF (kaRender cfgMaxOne ⟨[], []⟩ (some vnHome) none).state ∧
    "k0" ∉ (pruneCacheEntry [("k0", vnFront)] "k0" ["k0"] none).keys ∧
    alistLookup (pruneCacheEntry [("k0", vnFront)] "k0" ["k0"] none).cache "k0" = none := by
  have hiff : ∀ x, x ∈ ["k0"] ↔ (alistLookup [("k0", vnFront)] x).isSome := by
    intro x
    by_cases hx : x = "k0"
    · subst hx
      simp [alistLookup]
    · simp [alistLookup, hx, Ne.symm hx]
  have hp := cache_keys_mapping_invariant.2 [("k0", vnFront)] "k0" ["k0"] none
    (by decide) (by decide) hiff
  exact ⟨cacheWF_empty, cache_keys_mapping_invariant.1 _ _ _ _ cacheWF_empty, hp.2.1, hp.2.2⟩

/-- C6: the cache key under which a qualifying child is stored is the
explicit identity key when one is present, and otherwise the constructor
identity followed by `::` and the tag, with the tag segment omitted when
the tag is absent. -/
theorem keepAlive_key_derivation :
    ∀ cfg st vnode cur opts, CacheWF st →
      vnode.componentOptions = some opts → kaFilteredOut cfg opts = false →
      (∀ kk, vnode.key = some kk →
        kk ∈ (kaRender cfg st (some vnode) cur).state.keys) ∧
      (vnode.key = none → ∀ t, opts.tag = some t → t ≠ "" →
        (toString opts.cid ++ "::" ++ t) ∈ (kaRender cfg st (some vnode) cur).state.keys) ∧
      (vnode.key = none → opts.tag = none →
        toString opts.cid ∈ (kaRender cfg st (some vnode) cur).state.keys) := by
  intro cfg st vnode cur opts h hop hf
  have hk := kaRender_key_mem cfg st vnode cur opts h hop hf
  refine ⟨?_, ?_, ?_⟩
  · intro kk hkk
    rw [hkk] at hk
    simpa [getDerivedKey] using hk
  · intro hkn t ht htne
    rw [hkn, ht] at hk
    simpa [getDerivedKey, truthyS, htne, String.append_assoc] using hk
  · intro hkn htn
    rw [hkn, htn] at hk
    simpa [getDerivedKey, truthyS] using hk

/-- Witness for C6: the demo `home` child (no explicit key, constructor id
`1`, tag `home`) is stored under `1::home`; a child with an explicit key is
stored under it verbatim; a tagless child is stored under the bare
constructor identity. -/
theorem keepAlive_key_derivation_witness :
    CacheWF ⟨[], []⟩ ∧
    ("1::home" ∈ (kaRender {} ⟨[], []⟩ (some vnHome) none).state.keys) ∧
    ("k1" ∈ (kaRender {} ⟨[], []⟩ (some vnNew) none).state.keys) ∧
    ("5" ∈ (kaRender {} ⟨[], []⟩ (some vnNoName) none).state.keys) := by
  refine ⟨cacheWF_empty, ?_, ?_, ?_⟩
  · have h := (keepAlive_key_derivation {} ⟨[], []⟩ vnHome none ⟨1, some "home", some "home"⟩
      cacheWF_empty rfl (by decide)).2.1 rfl "home" rfl (by decide)
    simpa using h
  · have h := (keepAlive_key_derivation {} ⟨[], []⟩ vnNew none ⟨2, some "b", some "b"⟩
      cacheWF_empty rfl (by decide)).1 "k1" rfl
    exact h
  · have h := (keepAlive_key_derivation {} ⟨[], []⟩ vnNoName none ⟨5, none, none⟩
      cacheWF_empty rfl (by decide)).2.2 rfl rfl
    simpa using h

/-- C7 counterexample: the claim says a configured filter always makes a
nameless child skip caching, but with only `exclude` configured the guard
`exclude && name && matches(exclude, name)` is falsy for an absent name, so
the nameless child is cached (under the synthesized key `5`) and marked
`keepAlive`. -/
theorem nameless_exclude_cached_counterexample :
    truthyPattern cfgExcludeOnly.excludeP = true ∧
    truthyS (getComponentName vnNoName.componentOptions) = false ∧
    (kaRender cfgExcludeOnly ⟨[], []⟩ (some vnNoName) none).state.cache ≠ [] ∧
    (kaRender cfgExcludeOnly ⟨[], []⟩ (some vnNoName) none).state.keys = ["5"] ∧
    (kaRender cfgExcludeOnly ⟨[], []⟩ (some vnNoName) none).returned.map VNode.keepAlive
      = some true := by
  decide

/-- C7 (amended): a nameless child skips caching and is returned unmodified
exactly when `include` is configured; when `include` is not configured —
even if `exclude` is — the nameless child is cached under the synthesized
key and its returned vnode carries the `keepAlive` mark. -/
theorem nameless_filter_behavior :
    (∀ cfg st vnode cur opts, vnode.componentOptions = some opts →
      truthyS (getComponentName (some opts)) = false →
      truthyPattern cfg.includeP = true →
      kaRender cfg st (some vnode) cur = ⟨st, some vnode, []⟩) ∧
    (∀ cfg st vnode cur opts, CacheWF st → vnode.componentOptions = some opts →
      truthyS (getComponentName (some opts)) = false →
      truthyPattern cfg.includeP = false →
      getDerivedKey vnode.key opts.cid opts.tag ∈ (kaRender cfg st (some vnode) cur).state.keys ∧
      (kaRender cfg st (some vnode) cur).returned.map VNode.keepAlive = some true) := by
  constructor
  · intro cfg st vnode cur opts hop hname hinc
    have hf : kaFilteredOut cfg opts = true := by
      simp [kaFilteredOut, hname, hinc]
    exact kaRender_skip cfg st vnode cur opts hop hf
  · intro cfg st vnode cur opts h hop hname hinc
    have hf : kaFilteredOut cfg opts = false := by
      simp [kaFilteredOut, hname, hinc]
    exact ⟨kaRender_key_mem cfg st vnode cur opts h hop hf,
           kaRender_returned_marked cfg st vnode cur opts hop hf⟩

/-- Witness for C7: with `include` configured the nameless child passes
through unmodified; with only `exclude` configured it is cached under the
synthesized key `5`. -/
theorem nameless_filter_behavior_witness :
    kaRender cfgIncludeHome ⟨[], []⟩ (some vnNoName) none = ⟨⟨[], []⟩, some vnNoName, []⟩ ∧
    "5" ∈ (kaRender cfgExcludeOnly ⟨[], []⟩ (some vnNoName) none).state.keys := by
  constructor
  · exact nameless_filter_behavior.1 cfgIncludeHome ⟨[], []⟩ vnNoName none ⟨5, none, none⟩
      rfl (by decide) (by decide)
  · have h := (nameless_filter_behavior.2 cfgExcludeOnly ⟨[], []⟩ vnNoName none ⟨5, none, none⟩
      cacheWF_empty rfl (by decide) (by decide)).1
    simpa [getDerivedKey] using h

/-- C1 counterexample: with `max = 1`, a cached front entry `k0` whose tag
`t` is identical to the tag of the current vnode, and a miss for key `k1`:
the claim predicts that `k0` is never evicted and `k1` (the next-oldest) is
evicted instead, but the code removes `k0` from both the mapping and the
order — the tag guard only suppresses the destroy call — and keeps `k1`. -/
theorem keepAlive_eviction_counterexample :
    vnFront.tag = vnCurrent.tag ∧
    alistLookup (kaRender cfgMaxOne stFront (some vnNew) (some vnCurrent)).state.cache "k0" = none ∧
    "k0" ∉ (kaRender cfgMaxOne stFront (some vnNew) (some vnCurrent)).state.keys ∧
    (alistLookup (kaRender cfgMaxOne stFront (some vnNew) (some vnCurrent)).state.cache "k1").isSome ∧
    (kaRender cfgMaxOne stFront (some vnNew) (some vnCurrent)).destroyed = [] := by
  decide

/-- C1 (amended): when a miss overflows the configured bound, eviction
always removes the entry at the front of the recency order from both the
mapping and the order — even when that entry is tag-identical to the
current vnode; the tag-identity guard only suppresses the destroy request;
no other entry is evicted, and the newly inserted key stays cached. -/
theorem keepAlive_eviction_front :
    ∀ cfg st vnode cur opts, CacheWF st →
      vnode.componentOptions = some opts → kaFilteredOut cfg opts = false →
      alistLookup st.cache (getDerivedKey vnode.key opts.cid opts.tag) = none →
      maxExceeded cfg.max (st.keys.length + 1) = true →
      (kaRender cfg st (some vnode) (some cur)).state.keys =
        (st.keys.erase (st.keys.headD "")) ++ [getDerivedKey vnode.key opts.cid opts.tag] ∧
      alistLookup (kaRender cfg st (some vnode) (some cur)).state.cache (st.keys.headD "") = none ∧
      (st.keys.headD "") ∉ (kaRender cfg st (some vnode) (some cur)).state.keys ∧
      (∀ x, x ∈ st.keys → x ≠ st.keys.headD "" →
        (alistLookup (kaRender cfg st (some vnode) (some cur)).state.cache x).isSome) ∧
      (alistLookup (kaRender cfg st (some vnode) (some cur)).state.cache
        (getDerivedKey vnode.key opts.cid opts.tag)).isSome ∧
      (∀ cv, alistLookup st.cache (st.keys.headD "") = some cv →
        (kaRender cfg st (some vnode) (some cur)).destroyed =
          (if cv.tag ≠ cur.tag then cv.componentInstance.toList else [])) := by
  intro cfg st vnode cur opts h hop hf hlk hmax
  rcases kaRender_cases cfg st vnode (some cur) opts hop hf with
    ⟨cv, hlk2, heq⟩ | ⟨hlk2, hmax2, heq⟩ | ⟨hlk2, hmax2, heq⟩
  · rw [hlk] at hlk2
    exact absurd hlk2 (by simp)
  · rw [hmax] at hmax2
    exact absurd hmax2 (by simp)
  · obtain ⟨m2, hm2, hm20, hgt⟩ := maxExceeded_spec cfg.max _ hmax
    have hne : st.keys ≠ [] := by
      intro hnil
      rw [hnil] at hgt
      simp at hgt
      omega
    have hhead : (st.keys ++ [getDerivedKey vnode.key opts.cid opts.tag]).headD "" =
        st.keys.headD "" := headD_append_of_ne_nil _ _ hne
    have hfm : st.keys.headD "" ∈ st.keys := headD_mem_of_ne_nil _ hne
    have hfk : st.keys.headD "" ≠ getDerivedKey vnode.key opts.cid opts.tag := by
      intro hEq
      have hmem : getDerivedKey vnode.key opts.cid opts.tag ∈ st.keys := hEq ▸ hfm
      have := (h.2.2 _).mp hmem
      rw [hlk] at this
      simp at this
    have h1 := cacheWF_insert st (getDerivedKey vnode.key opts.cid opts.tag)
      { vnode with keepAlive := true } h hlk
    have hlc1 : ∀ x, x ≠ getDerivedKey vnode.key opts.cid opts.tag →
        alistLookup ((getDerivedKey vnode.key opts.cid opts.tag,
          { vnode with keepAlive := true }) :: st.cache) x = alistLookup st.cache x := by
      intro x hx
      simp only [alistLookup]
      rw [if_neg (fun hc => hx hc.symm)]
    rw [heq]
    simp only [pruneCacheEntry_keys, pruneCacheEntry_cache, pruneCacheEntry_destroyed, hhead]
    refine ⟨?_, ?_, ?_, ?_, ?_, ?_⟩
    · rw [List.erase_append_left _ hfm]
    · exact alistLookup_remove_self _ _
    · rw [List.erase_append_left _ hfm]
      intro hmem
      rcases List.mem_append.mp hmem with hm1 | hm1
      · exact (h.1.mem_erase_iff.mp hm1).1 rfl
      · rw [List.mem_singleton] at hm1
        exact hfk hm1
    · intro x hx hxf
      rw [alistLookup_remove_ne _ _ _ hxf, hlc1 x (fun hc => by
          have := (h.2.2 x).mp hx
          rw [hc, hlk] at this
          simp at this)]
      exact (h.2.2 x).mp hx
    · rw [alistLookup_remove_ne _ _ _ (fun hc => hfk hc.symm)]
      simp [alistLookup]
    · intro cv hcv
      rw [hlc1 _ hfk, hcv]

/-- Witness for C1 (amended): in the concrete overflow state the front key
`k0` is dropped from the order, the new key `k1` stays cached, and because
the front entry is tag-identical to the current vnode nothing is
destroyed. -/
theorem keepAlive_eviction_front_witness :
    CacheWF stFront ∧
    "k0" ∉ (kaRender cfgMaxOne stFront (some vnNew) (some vnCurrent)).state.keys ∧
    (kaRender cfgMaxOne stFront (some vnNew) (some vnCurrent)).destroyed = [] := by
  have h := keepAlive_eviction_front cfgMaxOne stFront vnNew vnCurrent ⟨2, some "b", some "b"⟩
    cacheWF_stFront rfl (by decide) (by decide) (by decide)
  refine ⟨cacheWF_stFront, h.2.2.1, ?_⟩
  have hd := h.2.2.2.2.2 vnFront (by decide)
  rw [hd]
  decide

/-! ## Claim theorems: sameVnode -/

/-- C5 counterexample: two unresolved async placeholder nodes referencing
the same pending factory with no resolution error but distinct identity
keys satisfy the claim wording (the async branch on its own), yet
`sameVnode` rejects them: the async branch sits under the key-equality
conjunct and is not independent of it. -/
theorem sameVnode_async_key_counterexample :
    sameVnodeSpecClaim pvAsyncA pvAsyncB = true ∧
    sameVnode pvAsyncA pvAsyncB = false ∧
    pvAsyncA.isAsyncPlaceholder = true ∧ pvAsyncB.isAsyncPlaceholder = true ∧
    pvAsyncA.asyncFactory = pvAsyncB.asyncFactory ∧
    asyncFactoryError pvAsyncB = false ∧
    pvAsyncA.key ≠ pvAsyncB.key := by
  decide

/-- C5 (amended): two nodes are the same iff their identity keys are equal
AND (either the tag, comment kind, data presence and input subtype all
agree, or the first node is an unresolved async placeholder whose factory
is the second node's factory with no resolution error recorded) — the
async placeholder branch is guarded by key equality rather than being
sufficient on its own. -/
theorem sameVnode_characterization :
    ∀ a b : PVNode, sameVnode a b = true ↔
      (a.key = b.key ∧
        ((a.tag = b.tag ∧ a.isComment = b.isComment ∧ a.hasData = b.hasData ∧
          sameInputType a b = true)
         ∨ (a.isAsyncPlaceholder = true ∧ a.asyncFactory = b.asyncFactory ∧
            asyncFactoryError b = false))) := by
  intro a b
  simp only [sameVnode, Bool.and_eq_true, Bool.or_eq_true, beq_iff_eq,
    Bool.not_eq_true', and_assoc]

/-! ## Claim theorems: RouterView -/

theorem rvWalk_inactive_iff (chain : List RVAncestor) :
    (rvWalk chain).2 = true ↔
      ∃ a ∈ chain.takeWhile (fun x => !x.isRoot),
        a.keepAlive = true ∧ a.directInactive = true ∧ a.inactive = true := by
  induction chain with
  | nil => simp [rvWalk]
  | cons a rest ih =>
    by_cases hr : a.isRoot
    · simp [rvWalk, hr]
    · simp only [rvWalk, hr, List.takeWhile_cons, Bool.not_eq_true', Bool.not_true,
        Bool.or_eq_true, Bool.and_eq_true, Bool.false_eq_true, if_false, if_true,
        List.mem_cons, ih]
      constructor
      · rintro (⟨⟨h1, h2⟩, h3⟩ | ⟨x, hx, hprop⟩)
        · exact ⟨a, Or.inl rfl, h1, h2, h3⟩
        · exact ⟨x, Or.inr hx, hprop⟩
      · rintro ⟨x, hx | hx, hprop⟩
        · subst hx
          exact Or.inl ⟨⟨hprop.1, hprop.2.1⟩, hprop.2.2⟩
        · exact Or.inr ⟨x, hx, hprop⟩

/-- C4: a RouterView render pass is frozen exactly when some ancestor on
the parent chain up to (and excluding) the router root has the keep-alive
mark on its enclosing vnode and is both directly inactive and currently
inactive; a frozen pass does not consult the route at all, re-renders the
component cached under the slot name with the current render data and
children, and renders the empty placeholder (leaving the cache untouched)
when no cached component exists. -/
theorem routerView_frozen_iff :
    (∀ chain, (rvWalk chain).2 = true ↔
      ∃ a ∈ chain.takeWhile (fun x => !x.isRoot),
        a.keepAlive = true ∧ a.directInactive = true ∧ a.inactive = true) ∧
    (∀ name route route2 cache chain dat children, (rvWalk chain).2 = true →
      rvRender name route cache chain dat children =
        rvRender name route2 cache chain dat children) ∧
    (∀ name route cache chain dat children, (rvWalk chain).2 = true →
      (rvRender name route cache chain dat children).2 = cache ∧
      (∀ e, rvCacheGet cache name = some e →
        (rvRender name route cache chain dat children).1 =
          .rendered e.component dat children
            (match e.cfgRoute, e.cfgProps with
             | some r, some p => some (r, p)
             | _, _ => none)) ∧
      (rvCacheGet cache name = none →
        (rvRender name route cache chain dat children).1 = .empty)) := by
  refine ⟨rvWalk_inactive_iff, ?_, ?_⟩
  · intro name route route2 cache chain dat children hfr
    simp only [rvRender, hfr, if_true]
  · intro name route cache chain dat children hfr
    refine ⟨?_, ?_, ?_⟩
    · simp only [rvRender, hfr, if_true]
      cases rvCacheGet cache name <;> rfl
    · intro e he
      simp only [rvRender, hfr, if_true, he]
    · intro he
      simp only [rvRender, hfr, if_true, he]

/-- Witness for C4: in a concrete chain whose first ancestor is kept-alive,
directly inactive and inactive, the slot is frozen, two renders against
entirely different routes agree, and the cached component `42` is rendered
with the current data and children. -/
theorem routerView_frozen_iff_witness :
    (rvWalk exChainFrozen).2 = true ∧
    rvRender "default" ⟨[]⟩ exRVCache exChainFrozen 9 8 =
      rvRender "default" ⟨[⟨[("default", 99)], [("default", 7)]⟩]⟩ exRVCache exChainFrozen 9 8 ∧
    (rvRender "default" ⟨[]⟩ exRVCache exChainFrozen 9 8).1 = .rendered 42 9 8 none := by
  refine ⟨by decide, routerView_frozen_iff.2.1 _ _ _ _ _ _ _ (by decide), ?_⟩
  have h := (routerView_frozen_iff.2.2 "default" ⟨[]⟩ exRVCache exChainFrozen 9 8
    (by decide)).2.1 ⟨42, none, none⟩ (by decide)
  simpa using h

/-! ## Helper lemmas about the activation propagator -/

theorem evsFor_append (i : Nat) (xs ys : List LifeEv) :
    evsFor i (xs ++ ys) = evsFor i xs ++ evsFor i ys := by
  simp [evsFor]

theorem evsFor_single_self (i : Nat) (b : Bool) : evsFor i [(i, b)] = [b] := by
  simp [evsFor]

theorem evsFor_single_ne (i j : Nat) (b : Bool) (h : j ≠ i) : evsFor i [(j, b)] = [] := by
  simp [evsFor, h]

theorem evsFor_eq_nil (i : Nat) (evs : List LifeEv) (ids : List Nat)
    (hsub : ∀ e ∈ evs, e.1 ∈ ids) (hni : i ∉ ids) : evsFor i evs = [] := by
  have hf : evs.filter (fun e => e.1 == i) = [] := by
    refine List.filter_eq_nil_iff.mpr (fun e he => ?_)
    simp only [beq_iff_eq]
    intro hE
    exact hni (hE ▸ hsub e he)
  simp [evsFor, hf]

theorem activate_ids (t : CTree) :
    ∀ d a, idsOf (activateChildComponent d a t).1 = idsOf t := by
  refine CTree.rec
    (motive_1 := fun t => ∀ d a : Bool, idsOf (activateChildComponent d a t).1 = idsOf t)
    (motive_2 := fun cs => idsOfList (activateChildren cs).1 = idsOfList cs)
    ?_ ?_ ?_ t
  · intro st cs ih d a
    simp only [activateChildComponent]
    split
    · cases d <;> simp [idsOf]
    · split
      · cases d <;> simp [idsOf]
      · split
        · cases d <;> simp [idsOf]
        · cases d <;> simp [idsOf, ih]
  · simp [activateChildren]
  · intro t ts iht ihts
    simp [activateChildren, idsOfList, iht, ihts]

theorem deactivate_ids (t : CTree) :
    ∀ d a, idsOf (deactivateChildComponent d a t).1 = idsOf t := by
  refine CTree.rec
    (motive_1 := fun t => ∀ d a : Bool, idsOf (deactivateChildComponent d a t).1 = idsOf t)
    (motive_2 := fun cs => idsOfList (deactivateChildren cs).1 = idsOfList cs)
    ?_ ?_ ?_ t
  · intro st cs ih d a
    simp only [deactivateChildComponent]
    split
    · cases d <;> simp [idsOf]
    · split
      · cases d <;> simp [idsOf]
      · cases d <;> simp [idsOf, ih]
  · simp [deactivateChildren]
  · intro t ts iht ihts
    simp [deactivateChildren, idsOfList, iht, ihts]

theorem activate_evs (t : CTree) :
    ∀ d a, ∀ e ∈ (activateChildComponent d a t).2, e.2 = true ∧ e.1 ∈ idsOf t := by
  refine CTree.rec
    (motive_1 := fun t => ∀ d a : Bool, ∀ e ∈ (activateChildComponent d a t).2,
      e.2 = true ∧ e.1 ∈ idsOf t)
    (motive_2 := fun cs => ∀ e ∈ (activateChildren cs).2, e.2 = true ∧ e.1 ∈ idsOfList cs)
    ?_ ?_ ?_ t
  · intro st cs ih d a e he
    simp only [activateChildComponent] at he
    split at he
    · simp at he
    · split at he
      · simp at he
      · split at he
        · simp at he
        · simp only [List.mem_append, List.mem_singleton] at he
          rcases he with he | he
          · have := ih e he
            exact ⟨this.1, by simp [idsOf, this.2]⟩
          · subst he
            simp [idsOf]
  · intro e he
    simp [activateChildren] at he
  · intro t ts iht ihts e he
    simp only [activateChildren, List.mem_append] at he
    rcases he with he | he
    · have := iht false false e he
      exact ⟨this.1, by simp [idsOfList, this.2]⟩
    · have := ihts e he
      exact ⟨this.1, by simp [idsOfList, this.2]⟩

theorem deactivate_evs (t : CTree) :
    ∀ d a, ∀ e ∈ (deactivateChildComponent d a t).2, e.2 = false ∧ e.1 ∈ idsOf t := by
  refine CTree.rec
    (motive_1 := fun t => ∀ d a : Bool, ∀ e ∈ (deactivateChildComponent d a t).2,
      e.2 = false ∧ e.1 ∈ idsOf t)
    (motive_2 := fun cs => ∀ e ∈ (deactivateChildren cs).2, e.2 = false ∧ e.1 ∈ idsOfList cs)
    ?_ ?_ ?_ t
  · intro st cs ih d a e he
    simp only [deactivateChildComponent] at he
    split at he
    · simp at he
    · split at he
      · simp at he
      · simp only [List.mem_append, List.mem_singleton] at he
        rcases he with he | he
        · have := ih e he
          exact ⟨this.1, by simp [idsOf, this.2]⟩
        · subst he
          simp [idsOf]
  · intro e he
    simp [deactivateChildren] at he
  · intro t ts iht ihts e he
    simp only [deactivateChildren, List.mem_append] at he
    rcases he with he | he
    · have := iht false false e he
      exact ⟨this.1, by simp [idsOfList, this.2]⟩
    · have := ihts e he
      exact ⟨this.1, by simp [idsOfList, this.2]⟩

theorem activateChildren_evs (cs : List CTree) :
    ∀ e ∈ (activateChildren cs).2, e.2 = true ∧ e.1 ∈ idsOfList cs := by
  induction cs with
  | nil => intro e he; simp [activateChildren] at he
  | cons t ts ih =>
    intro e he
    simp only [activateChildren, List.mem_append] at he
    rcases he with he | he
    · have := activate_evs t false false e he
      exact ⟨this.1, by simp [idsOfList, this.2]⟩
    · have := ih e he
      exact ⟨this.1, by simp [idsOfList, this.2]⟩

theorem deactivateChildren_evs (cs : List CTree) :
    ∀ e ∈ (deactivateChildren cs).2, e.2 = false ∧ e.1 ∈ idsOfList cs := by
  induction cs with
  | nil => intro e he; simp [deactivateChildren] at he
  | cons t ts ih =>
    intro e he
    simp only [deactivateChildren, List.mem_append] at he
    rcases he with he | he
    · have := deactivate_evs t false false e he
      exact ⟨this.1, by simp [idsOfList, this.2]⟩
    · have := ih e he
      exact ⟨this.1, by simp [idsOfList, this.2]⟩

theorem inactiveOf_eq_none (i : Nat) (t : CTree) (h : i ∉ idsOf t) :
    inactiveOf i t = none := by
  refine CTree.rec
    (motive_1 := fun t => i ∉ idsOf t → inactiveOf i t = none)
    (motive_2 := fun cs => i ∉ idsOfList cs → inactiveOfList i cs = none)
    ?_ ?_ ?_ t h
  · intro st cs ih hni
    simp only [idsOf, List.mem_cons] at hni
    push_neg at hni
    have hne : st.iid ≠ i := fun hEq => hni.1 hEq.symm
    simp [inactiveOf, hne, ih hni.2]
  · intro _
    simp [inactiveOfList]
  · intro t ts iht ihts hni
    simp only [idsOfList, List.mem_append] at hni
    push_neg at hni
    simp [inactiveOfList, iht hni.1, ihts hni.2]

theorem inactiveOf_some_mem (i : Nat) (t : CTree) (v : Option Bool)
    (h : inactiveOf i t = some v) : i ∈ idsOf t := by
  by_contra hni
  rw [inactiveOf_eq_none i t hni] at h
  exact absurd h (by simp)

theorem inactiveOfList_eq_none (i : Nat) (cs : List CTree) (h : i ∉ idsOfList cs) :
    inactiveOfList i cs = none := by
  induction cs with
  | nil => simp [inactiveOfList]
  | cons t ts ih =>
    simp only [idsOfList, List.mem_append] at h
    push_neg at h
    simp [inactiveOfList, inactiveOf_eq_none i t h.1, ih h.2]

theorem activate_per_id (t : CTree) :
    ∀ d a i, (idsOf t).Nodup →
      (evsFor i (activateChildComponent d a t).2 = [] ∧
        inactiveOf i (activateChildComponent d a t).1 = inactiveOf i t)
      ∨ (evsFor i (activateChildComponent d a t).2 = [true] ∧
        (∃ v, inactiveOf i t = some v ∧ v ≠ some false) ∧
        inactiveOf i (activateChildComponent d a t).1 = some (some false)) := by
  refine CTree.rec
    (motive_1 := fun t => ∀ d a i, (idsOf t).Nodup →
      (evsFor i (activateChildComponent d a t).2 = [] ∧
        inactiveOf i (activateChildComponent d a t).1 = inactiveOf i t)
      ∨ (evsFor i (activateChildComponent d a t).2 = [true] ∧
        (∃ v, inactiveOf i t = some v ∧ v ≠ some false) ∧
        inactiveOf i (activateChildComponent d a t).1 = some (some false)))
    (motive_2 := fun cs => ∀ i, (idsOfList cs).Nodup →
      (evsFor i (activateChildren cs).2 = [] ∧
        inactiveOfList i (activateChildren cs).1 = inactiveOfList i cs)
      ∨ (evsFor i (activateChildren cs).2 = [true] ∧
        (∃ v, inactiveOfList i cs = some v ∧ v ≠ some false) ∧
        inactiveOfList i (activateChildren cs).1 = some (some false)))
    ?_ ?_ ?_ t
  · intro st cs ih d a i h
    simp only [activateChildComponent]
    split
    · left
      cases d <;> simp [evsFor, inactiveOf]
    · split
      · left
        cases d <;> simp [evsFor, inactiveOf]
      · split
        · left
          cases d <;> simp [evsFor, inactiveOf]
        · rename_i h1 h2 h3
          have hin : st.inactive ≠ some false := by simpa using h3
          simp only [idsOf] at h
          have hroot : st.iid ∉ idsOfList cs := (List.nodup_cons.mp h).1
          have hcs : (idsOfList cs).Nodup := (List.nodup_cons.mp h).2
          by_cases hi : st.iid = i
          · right
            subst hi
            have hnil : evsFor st.iid (activateChildren cs).2 = [] :=
              evsFor_eq_nil _ _ _ (fun e he => (activateChildren_evs cs e he).2) hroot
            refine ⟨?_, ⟨st.inactive, by simp [inactiveOf], hin⟩, ?_⟩
            · rw [evsFor_append, hnil, evsFor_single_self]
              rfl
            · cases d <;> simp [inactiveOf]
          · rcases ih i hcs with ⟨he, hs⟩ | ⟨he, hex, hs⟩
            · left
              constructor
              · rw [evsFor_append, he, evsFor_single_ne _ _ _ hi]
                rfl
              · cases d <;> simp [inactiveOf, hi, hs]
            · right
              refine ⟨?_, ?_, ?_⟩
              · rw [evsFor_append, he, evsFor_single_ne _ _ _ hi]
                rfl
              · simpa [inactiveOf, hi] using hex
              · cases d <;> simp [inactiveOf, hi, hs]
  · intro i h
    left
    simp [activateChildren, evsFor, inactiveOfList]
  · intro t ts iht ihts i h
    simp only [idsOfList] at h
    have ht : (idsOf t).Nodup := h.of_append_left
    have hts : (idsOfList ts).Nodup := h.of_append_right
    have hdisj : (idsOf t).Disjoint (idsOfList ts) := List.disjoint_of_nodup_append h
    simp only [activateChildren]
    rcases iht false false i ht with ⟨he1, hs1⟩ | ⟨he1, hex1, hs1⟩
    · cases hcase : inactiveOf i t with
      | some v =>
        have hmem : i ∈ idsOf t := inactiveOf_some_mem i t v hcase
        have hni : i ∉ idsOfList ts := fun hm => hdisj hmem hm
        have he2 : evsFor i (activateChildren ts).2 = [] :=
          evsFor_eq_nil _ _ _ (fun e he => (activateChildren_evs ts e he).2) hni
        left
        constructor
        · rw [evsFor_append, he1, he2]
          rfl
        · simp [inactiveOfList, hs1, hcase]
      | none =>
        rcases ihts i hts with ⟨he2, hs2⟩ | ⟨he2, hex2, hs2⟩
        · left
          constructor
          · rw [evsFor_append, he1, he2]
            rfl
          · simp [inactiveOfList, hs1, hcase, hs2]
        · right
          obtain ⟨v, hv, hvne⟩ := hex2
          refine ⟨?_, ⟨v, by simp [inactiveOfList, hcase, hv], hvne⟩, ?_⟩
          · rw [evsFor_append, he1, he2]
            rfl
          · simp [inactiveOfList, hs1, hcase, hs2]
    · obtain ⟨v, hv, hvne⟩ := hex1
      have hmem : i ∈ idsOf t := inactiveOf_some_mem i t v hv
      have hni : i ∉ idsOfList ts := fun hm => hdisj hmem hm
      have he2 : evsFor i (activateChildren ts).2 = [] :=
        evsFor_eq_nil _ _ _ (fun e he => (activateChildren_evs ts e he).2) hni
      right
      refine ⟨?_, ⟨v, by simp [inactiveOfList, hv], hvne⟩, ?_⟩
      · rw [evsFor_append, he1, he2]
        rfl
      · simp [inactiveOfList, hs1]

theorem deactivate_per_id (t : CTree) :
    ∀ d a i, (idsOf t).Nodup →
      (evsFor i (deactivateChildComponent d a t).2 = [] ∧
        inactiveOf i (deactivateChildComponent d a t).1 = inactiveOf i t)
      ∨ (evsFor i (deactivateChildComponent d a t).2 = [false] ∧
        (∃ v, inactiveOf i t = some v ∧ v ≠ some true) ∧
        inactiveOf i (deactivateChildComponent d a t).1 = some (some true)) := by
  refine CTree.rec
    (motive_1 := fun t => ∀ d a i, (idsOf t).Nodup →
      (evsFor i (deactivateChildComponent d a t).2 = [] ∧
        inactiveOf i (deactivateChildComponent d a t).1 = inactiveOf i t)
      ∨ (evsFor i (deactivateChildComponent d a t).2 = [false] ∧
        (∃ v, inactiveOf i t = some v ∧ v ≠ some true) ∧
        inactiveOf i (deactivateChildComponent d a t).1 = some (some true)))
    (motive_2 := fun cs => ∀ i, (idsOfList cs).Nodup →
      (evsFor i (deactivateChildren cs).2 = [] ∧
        inactiveOfList i (deactivateChildren cs).1 = inactiveOfList i cs)
      ∨ (evsFor i (deactivateChildren cs).2 = [false] ∧
        (∃ v, inactiveOfList i cs = some v ∧ v ≠ some true) ∧
        inactiveOfList i (deactivateChildren cs).1 = some (some true)))
    ?_ ?_ ?_ t
  · intro st cs ih d a i h
    simp only [deactivateChildComponent]
    split
    · left
      cases d <;> simp [evsFor, inactiveOf]
    · split
      · left
        cases d <;> simp [evsFor, inactiveOf]
      · rename_i h1 h2
        have hin : st.inactive ≠ some true := by simpa using h2
        simp only [idsOf] at h
        have hroot : st.iid ∉ idsOfList cs := (List.nodup_cons.mp h).1
        have hcs : (idsOfList cs).Nodup := (List.nodup_cons.mp h).2
        by_cases hi : st.iid = i
        · right
          subst hi
          have hnil : evsFor st.iid (deactivateChildren cs).2 = [] :=
            evsFor_eq_nil _ _ _ (fun e he => (deactivateChildren_evs cs e he).2) hroot
          refine ⟨?_, ⟨st.inactive, by simp [inactiveOf], hin⟩, ?_⟩
          · rw [evsFor_append, hnil, evsFor_single_self]
            rfl
          · cases d <;> simp [inactiveOf]
        · rcases ih i hcs with ⟨he, hs⟩ | ⟨he, hex, hs⟩
          · left
            constructor
            · rw [evsFor_append, he, evsFor_single_ne _ _ _ hi]
              rfl
            · cases d <;> simp [inactiveOf, hi, hs]
          · right
            refine ⟨?_, ?_, ?_⟩
            · rw [evsFor_append, he, evsFor_single_ne _ _ _ hi]
              rfl
            · simpa [inactiveOf, hi] using hex
            · cases d <;> simp [inactiveOf, hi, hs]
  · intro i h
    left
    simp [deactivateChildren, evsFor, inactiveOfList]
  · intro t ts iht ihts i h
    simp only [idsOfList] at h
    have ht : (idsOf t).Nodup := h.of_append_left
    have hts : (idsOfList ts).Nodup := h.of_append_right
    have hdisj : (idsOf t).Disjoint (idsOfList ts) := List.disjoint_of_nodup_append h
    simp only [deactivateChildren]
    rcases iht false false i ht with ⟨he1, hs1⟩ | ⟨he1, hex1, hs1⟩
    · cases hcase : inactiveOf i t with
      | some v =>
        have hmem : i ∈ idsOf t := inactiveOf_some_mem i t v hcase
        have hni : i ∉ idsOfList ts := fun hm => hdisj hmem hm
        have he2 : evsFor i (deactivateChildren ts).2 = [] :=
          evsFor_eq_nil _ _ _ (fun e he => (deactivateChildren_evs ts e he).2) hni
        left
        constructor
        · rw [evsFor_append, he1, he2]
          rfl
        · simp [inactiveOfList, hs1, hcase]
      | none =>
        rcases ihts i hts with ⟨he2, hs2⟩ | ⟨he2, hex2, hs2⟩
        · left
          constructor
          · rw [evsFor_append, he1, he2]
            rfl
          · simp [inactiveOfList, hs1, hcase, hs2]
        · right
          obtain ⟨v, hv, hvne⟩ := hex2
          refine ⟨?_, ⟨v, by simp [inactiveOfList, hcase, hv], hvne⟩, ?_⟩
          · rw [evsFor_append, he1, he2]
            rfl
          · simp [inactiveOfList, hs1, hcase, hs2]
    · obtain ⟨v, hv, hvne⟩ := hex1
      have hmem : i ∈ idsOf t := inactiveOf_some_mem i t v hv
      have hni : i ∉ idsOfList ts := fun hm => hdisj hmem hm
      have he2 : evsFor i (deactivateChildren ts).2 = [] :=
        evsFor_eq_nil _ _ _ (fun e he => (deactivateChildren_evs ts e he).2) hni
      right
      refine ⟨?_, ⟨v, by simp [inactiveOfList, hv], hvne⟩, ?_⟩
      · rw [evsFor_append, he1, he2]
        rfl
      · simp [inactiveOfList, hs1]

theorem runCall_ids (c : LCall) (t : CTree) : idsOf (runCall c t).1 = idsOf t := by
  cases c with
  | act d a => exact activate_ids t d a
  | deact d a => exact deactivate_ids t d a

theorem runCall_per_id (c : LCall) (t : CTree) (i : Nat) (h : (idsOf t).Nodup) :
    (evsFor i (runCall c t).2 = [] ∧ inactiveOf i (runCall c t).1 = inactiveOf i t)
    ∨ (∃ b, evsFor i (runCall c t).2 = [b] ∧
        (∃ v, inactiveOf i t = some v ∧ v ≠ some (!b)) ∧
        inactiveOf i (runCall c t).1 = some (some (!b))) := by
  cases c with
  | act d a =>
    rcases activate_per_id t d a i h with h1 | ⟨he, hex, hs⟩
    · exact Or.inl h1
    · exact Or.inr ⟨true, he, by simpa using hex, by simpa using hs⟩
  | deact d a =>
    rcases deactivate_per_id t d a i h with h1 | ⟨he, hex, hs⟩
    · exact Or.inl h1
    · exact Or.inr ⟨false, he, by simpa using hex, by simpa using hs⟩

theorem runCall_alt_step (c : LCall) (t : CTree) (i : Nat) (evs0 : List Bool)
    (h : (idsOf t).Nodup) (hc : altConsistent (inactiveOf i t) evs0) :
    altConsistent (inactiveOf i (runCall c t).1) (evs0 ++ evsFor i (runCall c t).2) := by
  rcases runCall_per_id c t i h with ⟨he, hs⟩ | ⟨b, he, ⟨v, hv, hvne⟩, hs⟩
  · rw [he, hs, List.append_nil]
    exact hc
  · rw [he, hs]
    constructor
    · rw [List.chain'_append]
      refine ⟨hc.1, List.chain'_singleton b, fun x hx y hy => ?_⟩
      simp only [List.head?_cons, Option.mem_def, Option.some.injEq] at hy
      subst hy
      have h1 := hc.2 x hx
      rw [hv] at h1
      have h2 : v = some (!x) := by injection h1
      intro hxy
      subst hxy
      exact hvne h2
    · intro b2 hb2
      rw [List.getLast?_concat] at hb2
      injection hb2 with hb2
      subst hb2
      rfl

theorem runCalls_alt (calls : List LCall) :
    ∀ t i evs0, (idsOf t).Nodup → altConsistent (inactiveOf i t) evs0 →
      altConsistent (inactiveOf i (runCalls calls t).1)
        (evs0 ++ evsFor i (runCalls calls t).2) := by
  induction calls with
  | nil =>
    intro t i evs0 h hc
    simpa [runCalls, evsFor] using hc
  | cons c cs ih =>
    intro t i evs0 h hc
    have hstep := runCall_alt_step c t i evs0 h hc
    have hnodup : (idsOf (runCall c t).1).Nodup := (runCall_ids c t).symm ▸ h
    have hrec := ih (runCall c t).1 i (evs0 ++ evsFor i (runCall c t).2) hnodup hstep
    have hshape : (runCalls (c :: cs) t).1 = (runCalls cs (runCall c t).1).1 := rfl
    have hevs : (runCalls (c :: cs) t).2 =
        (runCall c t).2 ++ (runCalls cs (runCall c t).1).2 := rfl
    rw [hshape, hevs, evsFor_append, ← List.append_assoc]
    exact hrec

/-! ## Claim theorems: the activation propagator -/

/-- C3 counterexample: directly deactivating an instance that is already
inactive fires no callback, as claimed, but it does change state: the
assignment `vm._directInactive = true` happens before the idempotence
guard, so the `_directInactive` flag flips from `false` to `true`. -/
theorem deactivate_already_inactive_state_change :
    rootInactive exInactive = some true ∧
    rootDirectInactive exInactive = false ∧
    (deactivateChildComponent true false exInactive).2 = [] ∧
    rootDirectInactive (deactivateChildComponent true false exInactive).1 = true := by
  decide

/-- C3 (amended): for every instance of every tree and every sequence of
dispatcher calls, the recorded `activated` and `deactivated` callbacks for
that instance strictly alternate; activating an already-active instance or
deactivating an already-inactive instance fires no callback and leaves the
`_inactive` flag unchanged — though a direct call may still update the
`_directInactive` flag. -/
theorem lifecycle_callbacks_alternate :
    (∀ calls t, (idsOf t).Nodup → ∀ i,
      List.Chain' (· ≠ ·) (evsFor i (runCalls calls t).2)) ∧
    (∀ st cs d a, st.inactive = some false →
      (activateChildComponent d a (.node st cs)).2 = [] ∧
      rootInactive (activateChildComponent d a (.node st cs)).1 = some false) ∧
    (∀ st cs d a, st.inactive = some true →
      (deactivateChildComponent d a (.node st cs)).2 = [] ∧
      rootInactive (deactivateChildComponent d a (.node st cs)).1 = some true) := by
  refine ⟨?_, ?_, ?_⟩
  · intro calls t h i
    have hinit : altConsistent (inactiveOf i t) [] := ⟨List.chain'_nil, by simp⟩
    have := runCalls_alt calls t i [] h hinit
    simpa using this.1
  · intro st cs d a h
    cases d <;> cases a <;> by_cases hdi : st.directInactive <;>
      simp [activateChildComponent, rootInactive, h, hdi]
  · intro st cs d a h
    cases d <;> cases a <;>
      simp [deactivateChildComponent, rootInactive, h]

/-- Witness for C3: a concrete activate–deactivate–activate sequence on the
two-child tree yields an alternating callback sequence for the root, and
the idempotent cases fire nothing on concrete already-matching trees. -/
theorem lifecycle_callbacks_alternate_witness :
    List.Chain' (· ≠ ·)
      (evsFor 0 (runCalls [.act true false, .deact true false, .act true false] exParent).2) ∧
    (activateChildComponent true false (.node ⟨0, some false, false⟩ [])).2 = [] ∧
    (deactivateChildComponent false false exInactive).2 = [] := by
  refine ⟨lifecycle_callbacks_alternate.1 _ exParent (by decide) 0, ?_, ?_⟩
  · exact (lifecycle_callbacks_alternate.2.1 ⟨0, some false, false⟩ [] true false rfl).1
  · exact (lifecycle_callbacks_alternate.2.2 ⟨0, some true, false⟩ [] false false rfl).1

/-- C8: activating a parent with two children fires the callbacks of child
A, then those of child B, then the parent's own `activated` — children
strictly before the parent, in order — and deactivation mirrors the same
children-before-parent ordering. -/
theorem activation_children_before_parent :
    (∀ st a b, st.inactive ≠ some false →
      (activateChildComponent true false (.node st [a, b])).2 =
        (activateChildComponent false false a).2 ++ (activateChildComponent false false b).2 ++
          [(st.iid, true)]) ∧
    (∀ st a b, st.inactive ≠ some true →
      (deactivateChildComponent true false (.node st [a, b])).2 =
        (deactivateChildComponent false false a).2 ++ (deactivateChildComponent false false b).2 ++
          [(st.iid, false)]) := by
  constructor
  · intro st a b h
    simp [activateChildComponent, activateChildren, h]
  · intro st a b h
    simp [deactivateChildComponent, deactivateChildren, h]

/-- Witness for C8: on the concrete two-child trees the activation trace is
child 1, child 2, parent 0, and the deactivation trace mirrors it. -/
theorem activation_children_before_parent_witness :
    (activateChildComponent true false exParent).2 =
      (activateChildComponent false false (.node ⟨1, some true, false⟩ [])).2 ++
      (activateChildComponent false false (.node ⟨2, some true, false⟩ [])).2 ++ [(0, true)] ∧
    (deactivateChildComponent true false exParentActive).2 =
      (deactivateChildComponent false false (.node ⟨1, some false, false⟩ [])).2 ++
      (deactivateChildComponent false false (.node ⟨2, some false, false⟩ [])).2 ++ [(0, false)] := by
  constructor
  · exact activation_children_before_parent.1 ⟨0, some true, false⟩ _ _ (by decide)
  · exact activation_children_before_parent.2 ⟨0, some false, false⟩ _ _ (by decide)

/-- C10: on the non-direct path a deactivation is skipped (fires nothing
and changes nothing) exactly when the instance is already inactive; the
`_directInactive` flag is never consulted there — the fired callbacks do
not depend on it — unlike activation, whose non-direct path stops on a set
`_directInactive`; consequently a directly-inactive but still-active
instance is deactivated by ancestor propagation. -/
theorem deactivate_nondirect_characterization :
    (∀ (st : InstSt) (cs : List CTree) (a : Bool),
      ((deactivateChildComponent false a (.node st cs)).2 = [] ↔
      st.inactive = some true)) ∧
    (∀ (st : InstSt) (cs : List CTree) (a : Bool), st.inactive = some true →
      deactivateChildComponent false a (.node st cs) = (.node st cs, [])) ∧
    (∀ (st : InstSt) (cs : List CTree) (a d1 d2 : Bool),
      (deactivateChildComponent false a (.node { st with directInactive := d1 } cs)).2 =
      (deactivateChildComponent false a (.node { st with directInactive := d2 } cs)).2) ∧
    (∀ (st : InstSt) (cs : List CTree) (a : Bool), st.directInactive = true →
      activateChildComponent false a (.node st cs) = (.node st cs, [])) ∧
    (∀ (st : InstSt) (cs : List CTree) (a : Bool),
      st.directInactive = true → st.inactive = some false →
      (st.iid, false) ∈ (deactivateChildComponent false a (.node st cs)).2) := by
  refine ⟨?_, ?_, ?_, ?_, ?_⟩
  · intro st cs a
    by_cases hin : st.inactive = some true <;>
      simp [deactivateChildComponent, hin]
  · intro st cs a h
    simp [deactivateChildComponent, h]
  · intro st cs a d1 d2
    by_cases hin : st.inactive = some true <;>
      simp [deactivateChildComponent, hin]
  · intro st cs a h
    simp [activateChildComponent, h]
  · intro st cs a hdi hin
    simp [deactivateChildComponent, hin]

/-- Witness for C10: the concrete directly-inactive but still-active
instance is deactivated by a non-direct call, its callback actually fires,
and the already-inactive case is a strict no-op; a non-direct activation on
the same flags is stopped. -/
theorem deactivate_nondirect_characterization_witness :
    deactivateChildComponent false false exInactive = (exInactive, []) ∧
    (4, false) ∈ (deactivateChildComponent false false exDirectInactive).2 ∧
    activateChildComponent false false exDirectInactive = (exDirectInactive, []) := by
  refine ⟨?_, ?_, ?_⟩
  · exact deactivate_nondirect_characterization.2.1 ⟨0, some true, false⟩ [] false rfl
  · exact deactivate_nondirect_characterization.2.2.2.2 ⟨4, some false, true⟩ [] false rfl rfl
  · exact deactivate_nondirect_characterization.2.2.2.1 ⟨4, some false, true⟩ [] false rfl
